import Mathlib

/-!
Verification of the `statistical_analysis` subsystem of the value_hierarchy
repository.  Python functions are shallowly embedded as executable Lean
definitions over exact rationals (`ℚ`); a missing / NaN cell is `Option.none`.
Where the Python result of a division is non-finite (NaN or ±inf), the
embedded function returns `none`.
-/

/- ================================================================
   § sa_utils.bh_fdr  (src/statistical_analysis/sa_utils.py, lines 50-69)

   p = asarray(pvals); n = m if m is not None else len(p)
   order = argsort(p); ranked[order] = 1..len(p); q = p * n / ranked
   q_sorted = q[order]; for i from len-2 down to 0:
     q_sorted[i] = min(q_sorted[i], q_sorted[i+1])
   q[order] = q_sorted; return q
   (np.argsort's order among tied p-values is unspecified; we embed a stable
   argsort — the final q-values are invariant under tie order because the
   downward min-propagation assigns tied p-values equal q-values.)
   ================================================================ -/

/-- Ranking order on indices: ascending p-value, ties by original index. -/
def rankLE (p : List ℚ) (i j : ℕ) : Prop :=
  p.getD i 0 < p.getD j 0 ∨ (p.getD i 0 = p.getD j 0 ∧ i ≤ j)

instance (p : List ℚ) : DecidableRel (rankLE p) := fun i j => by
  unfold rankLE; infer_instance

/-- `np.argsort(p)`: the list of indices `0..len(p)-1` sorted by p-value. -/
def argsort (p : List ℚ) : List ℕ :=
  List.insertionSort (rankLE p) (List.range p.length)

/-- The raw q-values in rank order: `q_sorted[k] = p[order[k]] * n / (k+1)`,
    i.e. `q_i = p_i * n / rank_i` listed by ascending rank. -/
def qRaw (p : List ℚ) (n : ℕ) : List ℚ :=
  (argsort p).enum.map (fun ki => p.getD ki.2 0 * (n : ℚ) / ((ki.1 : ℚ) + 1))

/-- The in-place downward loop
    `for i in range(len-2, -1, -1): q_sorted[i] = min(q_sorted[i], q_sorted[i+1])`:
    each element becomes the minimum of itself and the (already updated)
    element to its right. -/
def minPropagate : List ℚ → List ℚ
  | [] => []
  | x :: rest =>
    let r := minPropagate rest
    (match r with
     | [] => x
     | y :: _ => min x y) :: r

/-- `q[order] = q_sorted`: value `vals[k]` is stored at position `ord[k]`. -/
def scatterByOrder (n : ℕ) (ord : List ℕ) (vals : List ℚ) : List ℚ :=
  (List.range n).map (fun i =>
    match (ord.zip vals).find? (fun pr => pr.1 == i) with
    | some pr => pr.2
    | none => 0)

/-- The q-value component of `bh_fdr(pvals, m)`, in original input order. -/
def bh_fdr_q (p : List ℚ) (m : Option ℕ) : List ℚ :=
  let n := m.getD p.length
  scatterByOrder p.length (argsort p) (minPropagate (qRaw p n))

/- ---------- helper lemmas for bh_fdr ---------- -/

theorem rankLE_isTotal (p : List ℚ) : IsTotal ℕ (rankLE p) := by
  constructor
  intro i j
  rcases lt_trichotomy (p.getD i 0) (p.getD j 0) with h | h | h
  · exact Or.inl (Or.inl h)
  · rcases Nat.le_total i j with hij | hij
    · exact Or.inl (Or.inr ⟨h, hij⟩)
    · exact Or.inr (Or.inr ⟨h.symm, hij⟩)
  · exact Or.inr (Or.inl h)

theorem rankLE_isTrans (p : List ℚ) : IsTrans ℕ (rankLE p) := by
  constructor
  intro i j k hij hjk
  rcases hij with h1 | ⟨e1, l1⟩
  · rcases hjk with h2 | ⟨e2, _⟩
    · exact Or.inl (h1.trans h2)
    · exact Or.inl (e2 ▸ h1)
  · rcases hjk with h2 | ⟨e2, l2⟩
    · exact Or.inl (e1 ▸ h2)
    · exact Or.inr ⟨e1.trans e2, l1.trans l2⟩

theorem argsort_perm (p : List ℚ) : (argsort p).Perm (List.range p.length) :=
  List.perm_insertionSort _ _

theorem argsort_nodup (p : List ℚ) : (argsort p).Nodup :=
  ((argsort_perm p).nodup_iff).mpr (List.nodup_range _)

theorem argsort_mem_lt (p : List ℚ) {i : ℕ} (h : i ∈ argsort p) : i < p.length :=
  List.mem_range.mp ((argsort_perm p).mem_iff.mp h)

theorem argsort_length (p : List ℚ) : (argsort p).length = p.length := by
  simpa using (argsort_perm p).length_eq

theorem argsort_sorted (p : List ℚ) :
    List.Pairwise (fun i j => p.getD i 0 ≤ p.getD j 0) (argsort p) := by
  haveI := rankLE_isTotal p
  haveI := rankLE_isTrans p
  have h : List.Sorted (rankLE p) (argsort p) :=
    List.sorted_insertionSort (rankLE p) (List.range p.length)
  refine h.imp ?_
  intro i j hij
  rcases hij with h1 | ⟨e1, _⟩
  · exact le_of_lt h1
  · exact le_of_eq e1

theorem minPropagate_length : ∀ l : List ℚ, (minPropagate l).length = l.length
  | [] => rfl
  | _ :: rest => by
    simp [minPropagate, minPropagate_length rest]

theorem minPropagate_chain' : ∀ l : List ℚ, (minPropagate l).Chain' (· ≤ ·)
  | [] => List.chain'_nil
  | x :: rest => by
    have ih := minPropagate_chain' rest
    cases hr : minPropagate rest with
    | nil => simp [minPropagate, hr]
    | cons y t =>
      have : minPropagate (x :: rest) = min x y :: y :: t := by
        simp [minPropagate, hr]
      rw [this]
      exact List.Chain'.cons (min_le_right x y) (hr ▸ ih)

/-- Looking up position `i` in the scatter list. -/
theorem scatter_getD (n : ℕ) (ord : List ℕ) (vals : List ℚ) {i : ℕ} (hi : i < n) :
    (scatterByOrder n ord vals).getD i 0 =
      (match (ord.zip vals).find? (fun pr => pr.1 == i) with
       | some pr => pr.2
       | none => 0) := by
  unfold scatterByOrder
  rw [List.getD_eq_getElem?_getD, List.getElem?_map, List.getElem?_range hi]
  rfl

theorem map_lookup_zip : ∀ (ord : List ℕ) (vals : List ℚ), ord.Nodup →
    ord.length = vals.length →
    ord.map (fun i =>
      (match (ord.zip vals).find? (fun pr => pr.1 == i) with
       | some pr => pr.2
       | none => (0 : ℚ))) = vals
  | [], [], _, _ => rfl
  | [], _ :: _, _, h => by simp at h
  | _ :: _, [], _, h => by simp at h
  | a :: t, v :: w, hnd, hlen => by
    have hnd' : t.Nodup := hnd.of_cons
    have ha : a ∉ t := by
      intro hmem
      exact (List.nodup_cons.mp hnd).1 hmem
    have hlen' : t.length = w.length := by simpa using hlen
    have ih := map_lookup_zip t w hnd' hlen'
    simp only [List.zip_cons_cons, List.map_cons]
    have hhead :
        (match ((a, v) :: t.zip w).find? (fun pr => pr.1 == a) with
         | some pr => pr.2
         | none => (0 : ℚ)) = v := by
      rw [List.find?_cons_of_pos _ (by simp)]
    have htail :
        t.map (fun i =>
          (match ((a, v) :: t.zip w).find? (fun pr => pr.1 == i) with
           | some pr => pr.2
           | none => (0 : ℚ))) = w := by
      have step : ∀ i ∈ t,
          (match ((a, v) :: t.zip w).find? (fun pr => pr.1 == i) with
           | some pr => pr.2
           | none => (0 : ℚ)) =
          (match (t.zip w).find? (fun pr => pr.1 == i) with
           | some pr => pr.2
           | none => (0 : ℚ)) := by
        intro i hi
        have hne : a ≠ i := fun h => ha (h ▸ hi)
        rw [List.find?_cons_of_neg _ (by simpa using hne)]
      rw [List.map_congr_left step]
      exact ih
    rw [hhead, htail]

/-- Gathering the scattered q-values back in rank order recovers them. -/
theorem bh_fdr_gather (p : List ℚ) (m : Option ℕ) :
    (argsort p).map (fun i => (bh_fdr_q p m).getD i 0) =
      minPropagate (qRaw p (m.getD p.length)) := by
  set ord := argsort p with hord
  set vals := minPropagate (qRaw p (m.getD p.length)) with hvals
  have hlen : ord.length = vals.length := by
    rw [hvals, minPropagate_length]
    unfold qRaw
    simp [hord]
  have h1 : ∀ i ∈ ord, (bh_fdr_q p m).getD i 0 =
      (match (ord.zip vals).find? (fun pr => pr.1 == i) with
       | some pr => pr.2
       | none => 0) := by
    intro i hi
    unfold bh_fdr_q
    exact scatter_getD p.length ord vals (argsort_mem_lt p (hord ▸ hi))
  rw [List.map_congr_left h1]
  exact map_lookup_zip ord vals (hord ▸ argsort_nodup p) hlen

/- ---------- C1 and C10 ---------- -/

/-- C1: `bh_fdr` assigns each p-value, in its original position, the q-value
obtained by ranking the p-values ascending, computing `q_i = p_i * m / rank_i`
and propagating the minimum from the largest rank downward; the q-values are
non-decreasing when listed by ascending p-value; and for m=5 and p-values
[0.01, 0.04, 0.03, 0.20, 0.50] the smallest p-value's q-value is 0.05. -/
theorem C1_bh_fdr_step_up :
    (∀ p : List ℚ,
      List.Pairwise (fun i j => p.getD i 0 ≤ p.getD j 0) (argsort p)) ∧
    (∀ (p : List ℚ) (m : Option ℕ),
      (argsort p).map (fun i => (bh_fdr_q p m).getD i 0) =
        minPropagate (qRaw p (m.getD p.length))) ∧
    (∀ (p : List ℚ) (m : Option ℕ),
      ((argsort p).map (fun i => (bh_fdr_q p m).getD i 0)).Chain' (· ≤ ·)) ∧
    (bh_fdr_q [1/100, 4/100, 3/100, 20/100, 50/100] (some 5)).getD 0 0 = 1/20 := by
  refine ⟨argsort_sorted, bh_fdr_gather, ?_, ?_⟩
  · intro p m
    rw [bh_fdr_gather]
    exact minPropagate_chain' _
  · norm_num [bh_fdr_q, argsort, qRaw, minPropagate, scatterByOrder, rankLE,
      List.range_succ, List.insertionSort, List.orderedInsert, List.enum,
      List.enumFrom, List.find?]

/-- C10: `bh_fdr` does not cap q-values at 1: for p-values [0.9, 0.95] with
m = 5 the returned q-value of the first p-value is 19/8 > 1. -/
theorem C10_bh_fdr_uncapped :
    (bh_fdr_q [9/10, 19/20] (some 5)).getD 0 0 = 19/8 ∧ (1 : ℚ) < 19/8 := by
  constructor
  · norm_num [bh_fdr_q, argsort, qRaw, minPropagate, scatterByOrder, rankLE,
      List.range_succ, List.insertionSort, List.orderedInsert, List.enum,
      List.enumFrom, List.find?]
  · norm_num

/- ================================================================
   § 01_load_clean_qualtrics.apply_cleaning  (lines 56-114)

   A dataframe is modelled by its column list `dfCols` and, per participant,
   a row `row : String → Option ℚ` giving the numeric-coerced cell value
   (`none` = missing or unparseable, matching pd.to_numeric(errors="coerce")).
   pandas row statistics (std ddof=0, median, MAD) skip missing cells and are
   NaN (`none`) on empty data.  The float comparison `std < sd_floor` is
   embedded on variances: `sqrt v < f ↔ 0 < f ∧ v < f²` for `v ≥ 0`.
   ================================================================ -/

structure CleaningConfig where
  slider_cols : List String
  phase2_cols : List String
  total_slider_expected : ℕ := 84
  completeness_threshold : ℚ := 80/100
  sd_floor : ℚ := 4
  mad_floor : ℚ := 3

/-- `[c for c in cols if c in df.columns]`. -/
def presentCols (dfCols : List String) (cols : List String) : List String :=
  cols.filter (fun c => c ∈ dfCols)

/-- `df[present_cols].notna().sum(axis=1)` for one participant row. -/
def nonnullCount (dfCols : List String) (row : String → Option ℚ)
    (cfg : CleaningConfig) : ℕ :=
  ((presentCols dfCols cfg.slider_cols).filter (fun c => (row c).isSome)).length

/-- `completeness = nonnull_counts / float(cfg.total_slider_expected)`. -/
def completenessFrac (dfCols : List String) (row : String → Option ℚ)
    (cfg : CleaningConfig) : ℚ :=
  (nonnullCount dfCols row cfg : ℚ) / (cfg.total_slider_expected : ℚ)

/-- `keep_mask = completeness >= cfg.completeness_threshold`. -/
def keepMask (dfCols : List String) (row : String → Option ℚ)
    (cfg : CleaningConfig) : Bool :=
  decide (cfg.completeness_threshold ≤ completenessFrac dfCols row cfg)

/-- The participant's non-missing values among the given columns present in
    the dataframe (the data row statistics are computed over). -/
def rowVals (dfCols : List String) (row : String → Option ℚ)
    (cols : List String) : List ℚ :=
  (presentCols dfCols cols).filterMap row

/-- Population variance (`ddof=0`), `none` on empty data (pandas NaN). -/
def variance0 (l : List ℚ) : Option ℚ :=
  if l.length = 0 then none
  else
    let m := l.sum / (l.length : ℚ)
    some ((l.map (fun x => (x - m) ^ 2)).sum / (l.length : ℚ))

/-- `std(axis=1, ddof=0) < cfg.sd_floor` with NaN comparing false; on the
    variance scale `sqrt v < f ↔ 0 < f ∧ v < f²` (variances are ≥ 0). -/
def sdBelowFloor (dfCols : List String) (row : String → Option ℚ)
    (cfg : CleaningConfig) : Bool :=
  match variance0 (rowVals dfCols row cfg.phase2_cols) with
  | none => false
  | some v => decide (0 < cfg.sd_floor) && decide (v < cfg.sd_floor ^ 2)

/-- pandas `median` (linear interpolation: mean of the two middle order
    statistics for even length), `none` on empty data. -/
def median (l : List ℚ) : Option ℚ :=
  let s := List.insertionSort (· ≤ ·) l
  if s.length = 0 then none
  else if s.length % 2 = 1 then some (s.getD (s.length / 2) 0)
  else some ((s.getD (s.length / 2 - 1) 0 + s.getD (s.length / 2) 0) / 2)

/-- `(x - median(x)).abs().median()` over the participant's non-missing
    Phase-II values. -/
def madRow (l : List ℚ) : Option ℚ :=
  (median l).bind (fun m => median (l.map (fun x => |x - m|)))

/-- `mad < cfg.mad_floor` with NaN comparing false. -/
def madBelowFloor (dfCols : List String) (row : String → Option ℚ)
    (cfg : CleaningConfig) : Bool :=
  match madRow (rowVals dfCols row cfg.phase2_cols) with
  | none => false
  | some d => decide (d < cfg.mad_floor)

/-- `flat_mask = (std_vals < sd_floor) & (mad_vals < mad_floor)`. -/
def flatMask (dfCols : List String) (row : String → Option ℚ)
    (cfg : CleaningConfig) : Bool :=
  sdBelowFloor dfCols row cfg && madBelowFloor dfCols row cfg

/-- `keep_final = keep_mask & (~flat_mask)`. -/
def keepFinal (dfCols : List String) (row : String → Option ℚ)
    (cfg : CleaningConfig) : Bool :=
  keepMask dfCols row cfg && !flatMask dfCols row cfg

/- ---------- C2 and C3 ---------- -/

/-- C2: the completeness filter keeps a participant iff
`nonnull_count / total_slider_expected ≥ completeness_threshold`; a
participant with exactly `threshold * total` non-missing values who is not a
flatliner passes the full cleaning. -/
theorem C2_completeness_filter :
    (∀ (dfCols : List String) (row : String → Option ℚ) (cfg : CleaningConfig),
      keepMask dfCols row cfg = true ↔
        cfg.completeness_threshold ≤
          (nonnullCount dfCols row cfg : ℚ) / (cfg.total_slider_expected : ℚ)) ∧
    (∀ (dfCols : List String) (row : String → Option ℚ) (cfg : CleaningConfig),
      0 < cfg.total_slider_expected →
      (nonnullCount dfCols row cfg : ℚ) =
        cfg.completeness_threshold * (cfg.total_slider_expected : ℚ) →
      flatMask dfCols row cfg = false →
      keepFinal dfCols row cfg = true) := by
  constructor
  · intro dfCols row cfg
    simp [keepMask, completenessFrac]
  · intro dfCols row cfg htot hcount hflat
    have hne : ((cfg.total_slider_expected : ℚ)) ≠ 0 := by
      exact_mod_cast Nat.pos_iff_ne_zero.mp htot
    have hkeep : keepMask dfCols row cfg = true := by
      simp only [keepMask, completenessFrac, decide_eq_true_eq]
      rw [hcount]
      rw [mul_div_assoc, div_self hne, mul_one]
    simp [keepFinal, hkeep, hflat]

/-- Witness for C2: a concrete participant with exactly
`threshold * total = (1/21) * 84 = 4` non-missing slider values, non-flat
Phase-II answers, is kept. -/
theorem C2_completeness_filter_witness :
    (0 < (⟨["a","b","c","d","e"], ["a","b","c","d","e"], 84, 1/21, 4, 3⟩ :
        CleaningConfig).total_slider_expected) ∧
    keepFinal ["a","b","c","d","e"]
      (fun c => if c = "e" then none else if c = "a" ∨ c = "c" then some 0 else some 100)
      ⟨["a","b","c","d","e"], ["a","b","c","d","e"], 84, 1/21, 4, 3⟩ = true := by
  refine ⟨by norm_num, ?_⟩
  refine C2_completeness_filter.2 _ _ _ (by norm_num) ?_ ?_
  · have : nonnullCount ["a","b","c","d","e"]
        (fun c => if c = "e" then none else if c = "a" ∨ c = "c" then some 0 else some 100)
        ⟨["a","b","c","d","e"], ["a","b","c","d","e"], 84, 1/21, 4, 3⟩ = 4 := by
      simp [nonnullCount, presentCols]
    rw [this]; norm_num
  · have hvals : rowVals ["a","b","c","d","e"]
        (fun c => if c = "e" then none else if c = "a" ∨ c = "c" then some 0 else some 100)
        ["a","b","c","d","e"] = [0, 100, 0, 100] := by
      simp [rowVals, presentCols]
    simp only [flatMask, sdBelowFloor, hvals]
    norm_num [variance0]

/-- C3: the flatliner filter rejects a participant iff the Phase-II standard
deviation is strictly below the SD floor (on the variance scale:
`0 < floor ∧ variance < floor²`) AND the Phase-II MAD is strictly below the
MAD floor; a participant whose SD equals the floor exactly (variance =
floor², floor ≥ 0) is never rejected as a flatliner, whatever their MAD. -/
theorem C3_flatliner_filter :
    (∀ (dfCols : List String) (row : String → Option ℚ) (cfg : CleaningConfig),
      flatMask dfCols row cfg = true ↔
        ((∃ v, variance0 (rowVals dfCols row cfg.phase2_cols) = some v ∧
            0 < cfg.sd_floor ∧ v < cfg.sd_floor ^ 2) ∧
         (∃ d, madRow (rowVals dfCols row cfg.phase2_cols) = some d ∧
            d < cfg.mad_floor))) ∧
    (∀ (dfCols : List String) (row : String → Option ℚ) (cfg : CleaningConfig),
      0 ≤ cfg.sd_floor →
      variance0 (rowVals dfCols row cfg.phase2_cols) = some (cfg.sd_floor ^ 2) →
      keepMask dfCols row cfg = true →
      keepFinal dfCols row cfg = true) := by
  constructor
  · intro dfCols row cfg
    constructor
    · intro h
      simp only [flatMask, Bool.and_eq_true] at h
      obtain ⟨hsd, hmad⟩ := h
      constructor
      · unfold sdBelowFloor at hsd
        cases hv : variance0 (rowVals dfCols row cfg.phase2_cols) with
        | none => rw [hv] at hsd; simp at hsd
        | some v =>
          rw [hv] at hsd
          simp only [Bool.and_eq_true, decide_eq_true_eq] at hsd
          exact ⟨v, rfl, hsd.1, hsd.2⟩
      · unfold madBelowFloor at hmad
        cases hd : madRow (rowVals dfCols row cfg.phase2_cols) with
        | none => rw [hd] at hmad; simp at hmad
        | some d =>
          rw [hd] at hmad
          simp only [decide_eq_true_eq] at hmad
          exact ⟨d, rfl, hmad⟩
    · rintro ⟨⟨v, hv, hpos, hlt⟩, ⟨d, hd, hdlt⟩⟩
      simp only [flatMask, Bool.and_eq_true]
      constructor
      · unfold sdBelowFloor
        rw [hv]
        simp [hpos, hlt]
      · unfold madBelowFloor
        rw [hd]
        simp [hdlt]
  · intro dfCols row cfg hfl hv hkeep
    have hsd : sdBelowFloor dfCols row cfg = false := by
      unfold sdBelowFloor
      rw [hv]
      simp only [Bool.and_eq_false_iff, decide_eq_false_iff_not, not_lt]
      right
      exact le_refl _
    simp [keepFinal, flatMask, hkeep, hsd]

/-- Witness for C3: Phase-II values [0,0,0,0,10] have variance exactly
16 = 4² (SD exactly at the default floor 4) and MAD 0 < 3 (below its floor),
yet the participant is kept. -/
theorem C3_flatliner_filter_witness :
    (0 : ℚ) ≤ (4 : ℚ) ∧
    madBelowFloor ["a","b","c","d","e"]
      (fun c => if c = "e" then some 10 else some 0)
      ⟨["a","b","c","d","e"], ["a","b","c","d","e"], 5, 4/5, 4, 3⟩ = true ∧
    keepFinal ["a","b","c","d","e"]
      (fun c => if c = "e" then some 10 else some 0)
      ⟨["a","b","c","d","e"], ["a","b","c","d","e"], 5, 4/5, 4, 3⟩ = true := by
  have hvals : rowVals ["a","b","c","d","e"]
      (fun c => if c = "e" then some 10 else some 0)
      ["a","b","c","d","e"] = [0, 0, 0, 0, 10] := by
    simp [rowVals, presentCols]
  refine ⟨by norm_num, ?_, ?_⟩
  · have hmad : madRow [0, 0, 0, 0, 10] = some 0 := by
      norm_num [madRow, median, List.insertionSort, List.orderedInsert]
      intro h
      exact absurd h (List.cons_ne_nil _ _)
    simp [madBelowFloor, hvals, hmad]
  · refine C3_flatliner_filter.2 _ _ _ (by norm_num) ?_ ?_
    · simp only [hvals]
      norm_num [variance0]
    · have h5 : nonnullCount ["a","b","c","d","e"]
          (fun c => if c = "e" then some 10 else some 0)
          ⟨["a","b","c","d","e"], ["a","b","c","d","e"], 5, 4/5, 4, 3⟩ = 5 := by
        simp [nonnullCount, presentCols]
      simp only [keepMask, completenessFrac, h5, decide_eq_true_eq]
      norm_num

/- ================================================================
   § sa_utils.extract_block_long  (lines 221-235)

   for pair, col in mapping.items():
     if col in df_wide.columns:
       rows.append(DataFrame(ResponseId, pair, to_numeric(df[col]), block))
   return concat(rows)   (or the empty frame)

   A wide dataframe is its participant-id column, its column list, and a
   cell accessor (numeric-coerced); a dict is a key-ordered association
   list whose keys are distinct.
   ================================================================ -/

structure WideDF where
  responseIds : List String
  cols : List String
  cell : String → String → Option ℚ

structure LongRow where
  responseId : String
  pair : String
  phaseII : Option ℚ
  block : String

def mkRow (df : WideDF) (block : String) (pc : String × String)
    (rid : String) : LongRow :=
  { responseId := rid, pair := pc.1, phaseII := df.cell rid pc.2, block := block }

def extract_block_long (df : WideDF) (block : String)
    (mapping : List (String × String)) : List LongRow :=
  (mapping.filter (fun pc => pc.2 ∈ df.cols)).flatMap
    (fun pc => df.responseIds.map (mkRow df block pc))

/- ---------- helper lemmas for extract_block_long ---------- -/

theorem sum_map_ite_count {α : Type} (q : α → Bool) :
    ∀ l : List α, (l.map (fun x => if q x then (1 : ℕ) else 0)).sum = l.countP q
  | [] => rfl
  | a :: t => by
    by_cases h : q a = true <;>
      simp [List.countP_cons, sum_map_ite_count q t, h, Nat.add_comm]

theorem inner_count (df : WideDF) (blk : String) (pc' : String × String)
    (pr rid : String) (hids : df.responseIds.Nodup)
    (hrid : rid ∈ df.responseIds) :
    ((df.responseIds.map (mkRow df blk pc')).countP
      (fun r => r.responseId == rid && r.pair == pr && r.block == blk))
      = if pc'.1 = pr then 1 else 0 := by
  rw [List.countP_map]
  by_cases h : pc'.1 = pr
  · have hc := List.count_eq_one_of_mem hids hrid
    simp only [if_pos h]
    have : ((fun (r : LongRow) => r.responseId == rid && r.pair == pr && r.block == blk)
        ∘ mkRow df blk pc') = (fun rid' => rid' == rid) := by
      funext rid'
      simp [mkRow, Function.comp, h]
    rw [this]
    simpa [List.count] using hc
  · simp only [if_neg h]
    rw [List.countP_eq_zero]
    intro rid' _
    simp [mkRow, Function.comp, h]

/- ---------- C4 ---------- -/

/-- C4: `extract_block_long` emits exactly one panel row per
(participant, pair, block) combination for every mapped pair whose source
column exists in the wide table, no rows for a mapped pair whose source
column is missing, and no (participant, pair, block) combination twice. -/
theorem C4_extract_block_long (df : WideDF) (block : String)
    (mapping : List (String × String))
    (hids : df.responseIds.Nodup) (hkeys : (mapping.map Prod.fst).Nodup) :
    (∀ pc ∈ mapping, ∀ rid ∈ df.responseIds,
      ((extract_block_long df block mapping).countP
        (fun r => r.responseId == rid && r.pair == pc.1 && r.block == block))
        = if pc.2 ∈ df.cols then 1 else 0) ∧
    ((extract_block_long df block mapping).map
      (fun r => (r.responseId, r.pair))).Nodup := by
  set fl := mapping.filter (fun pc => pc.2 ∈ df.cols) with hfl
  have hsub : fl.Sublist mapping := List.filter_sublist mapping
  have hkeysfl : (fl.map Prod.fst).Nodup :=
    (hsub.map Prod.fst).nodup hkeys
  constructor
  · intro pc hpc rid hrid
    unfold extract_block_long
    rw [List.countP_flatMap]
    have hmap : (List.map (List.countP
        (fun r => r.responseId == rid && r.pair == pc.1 && r.block == block) ∘
        fun pc' => df.responseIds.map (mkRow df block pc')) fl)
        = fl.map (fun pc' => if pc'.1 = pc.1 then (1 : ℕ) else 0) := by
      refine List.map_congr_left ?_
      intro pc' _
      exact inner_count df block pc' pc.1 rid hids hrid
    rw [hmap]
    by_cases hcol : pc.2 ∈ df.cols
    · have hpcfl : pc ∈ fl := by
        rw [hfl, List.mem_filter]
        exact ⟨hpc, by simpa using hcol⟩
      have hkey : pc.1 ∈ fl.map Prod.fst := List.mem_map_of_mem Prod.fst hpcfl
      have hcount : (fl.map Prod.fst).count pc.1 = 1 :=
        List.count_eq_one_of_mem hkeysfl hkey
      rw [if_pos hcol]
      calc (fl.map (fun pc' => if pc'.1 = pc.1 then (1 : ℕ) else 0)).sum
          = fl.countP (fun pc' => pc'.1 == pc.1) := by
            rw [← sum_map_ite_count]
            refine congrArg List.sum (List.map_congr_left ?_)
            intro pc' _
            by_cases h : pc'.1 = pc.1 <;> simp [h]
        _ = (fl.map Prod.fst).count pc.1 := by
            rw [List.count_eq_countP, List.countP_map]
            rfl
        _ = 1 := hcount
    · rw [if_neg hcol]
      have hzero : ∀ pc' ∈ fl, (if pc'.1 = pc.1 then (1 : ℕ) else 0) = 0 := by
        intro pc' hpc'
        have hne : pc'.1 ≠ pc.1 := by
          intro heq
          have : pc' = pc :=
            List.inj_on_of_nodup_map hkeys (hsub.mem hpc') hpc heq
          rw [this] at hpc'
          rw [hfl, List.mem_filter] at hpc'
          exact hcol (by simpa using hpc'.2)
        simp [hne]
      rw [List.map_congr_left hzero]
      simp
  · unfold extract_block_long
    rw [List.map_flatMap]
    rw [List.nodup_flatMap]
    constructor
    · intro pc _
      rw [List.map_map]
      have : ((fun r : LongRow => (r.responseId, r.pair)) ∘ mkRow df block pc)
          = fun rid => (rid, pc.1) := by
        funext rid; rfl
      rw [this]
      exact hids.map (fun a b h => congrArg Prod.fst h)
    · have hpw : List.Pairwise (fun a b : String × String => a.1 ≠ b.1) fl :=
        List.pairwise_map.mp hkeysfl
      refine hpw.imp ?_
      intro a b hab
      intro x hxa hxb
      simp only [List.map_map, List.mem_map, Function.comp, mkRow] at hxa hxb
      obtain ⟨r1, _, h1⟩ := hxa
      obtain ⟨r2, _, h2⟩ := hxb
      apply hab
      have e1 : a.1 = x.2 := congrArg Prod.snd h1
      have e2 : b.1 = x.2 := congrArg Prod.snd h2
      rw [e1, e2]

/-- Witness for C4 at a concrete table: two participants, mapped pairs
`pairA → col1` (present) and `pairB → col2` (absent). -/
theorem C4_extract_block_long_witness :
    (["r1", "r2"] : List String).Nodup ∧
    ([("pairA", "col1"), ("pairB", "col2")].map Prod.fst).Nodup ∧
    ((∀ pc ∈ [("pairA", "col1"), ("pairB", "col2")],
      ∀ rid ∈ (WideDF.mk ["r1", "r2"] ["col1", "col3"] (fun _ _ => some 7)).responseIds,
      ((extract_block_long ⟨["r1", "r2"], ["col1", "col3"], fun _ _ => some 7⟩
          "B1" [("pairA", "col1"), ("pairB", "col2")]).countP
        (fun r => r.responseId == rid && r.pair == pc.1 && r.block == "B1"))
        = if pc.2 ∈ (WideDF.mk ["r1", "r2"] ["col1", "col3"]
            (fun _ _ => some 7)).cols then 1 else 0) ∧
    ((extract_block_long ⟨["r1", "r2"], ["col1", "col3"], fun _ _ => some 7⟩
        "B1" [("pairA", "col1"), ("pairB", "col2")]).map
      (fun r => (r.responseId, r.pair))).Nodup) :=
  ⟨by decide, by decide,
    C4_extract_block_long ⟨["r1", "r2"], ["col1", "col3"], fun _ _ => some 7⟩
      "B1" [("pairA", "col1"), ("pairB", "col2")] (by decide) (by decide)⟩

/- ================================================================
   § 14_B4_theory_profiles  (lines 44-91)

   VALUES = [Care, Fairness, Loyalty, Authority, Sanctity, Liberty]
   split_pair_name: first value that is a prefix of the pair name, rest is
   the second value; raises ValueError if none matches (modelled `none`).
   signature_for_block: per mapped pair, skip missing columns, include
   iff exactly one constituent value is focal (XOR), invert `100 - raw`
   iff the focal value is the second member, and average the oriented
   items per participant (pandas mean, skipping missing entries).
   A participant is a row `String → Option ℚ`; the outer `Option` of the
   result is the ValueError, the inner one the NaN of an empty average.
   ================================================================ -/

def VALUES : List String :=
  ["Care", "Fairness", "Loyalty", "Authority", "Sanctity", "Liberty"]

/-- Python `pair.startswith(v)` on the character sequence. -/
def str_starts_with (s v : String) : Bool :=
  s.data.take v.data.length == v.data

/-- `split_pair_name`: split e.g. "CareFairness" into ("Care", "Fairness"). -/
def split_pair_name (pair : String) : Option (String × String) :=
  (VALUES.find? (fun v => str_starts_with pair v)).map
    (fun v => (v, pair.drop v.length))

/-- The list of oriented included items (the `parts` accumulator) for one
    participant; `none` models the ValueError on an unsplittable pair name
    whose column is present. -/
def signatureParts (cols focal : List String) (row : String → Option ℚ) :
    List (String × String) → Option (List (Option ℚ))
  | [] => some []
  | pc :: rest =>
    if pc.2 ∈ cols then
      match split_pair_name pc.1 with
      | none => none
      | some (L, R) =>
        if ((decide (L ∈ focal)).xor (decide (R ∈ focal))) = true then
          (signatureParts cols focal row rest).map
            (fun tail =>
              ((row pc.2).map (fun x => if R ∈ focal then 100 - x else x)) :: tail)
        else signatureParts cols focal row rest
    else signatureParts cols focal row rest

/-- pandas `M.mean(axis=1)` for one participant: mean of the non-missing
    entries, NaN when there are none (also covering the `if not parts`
    Series-of-NaN branch). -/
def nanmean (l : List (Option ℚ)) : Option ℚ :=
  let v := l.filterMap id
  if v.length = 0 then none else some (v.sum / (v.length : ℚ))

/-- `signature_for_block` for one participant. -/
def signature_for_block (mapping : List (String × String))
    (cols focal : List String) (row : String → Option ℚ) : Option (Option ℚ) :=
  (signatureParts cols focal row mapping).map nanmean

/-- Closed form: when every present mapped pair splits, the parts are
    exactly the XOR-included, orientation-corrected items. -/
theorem signatureParts_closed (cols focal : List String)
    (row : String → Option ℚ) :
    ∀ mapping : List (String × String),
      (∀ pc ∈ mapping, pc.2 ∈ cols → (split_pair_name pc.1).isSome = true) →
      signatureParts cols focal row mapping =
        some (mapping.filterMap (fun pc =>
          if pc.2 ∈ cols then
            match split_pair_name pc.1 with
            | some (L, R) =>
              if ((decide (L ∈ focal)).xor (decide (R ∈ focal))) = true then
                some ((row pc.2).map (fun x => if R ∈ focal then 100 - x else x))
              else none
            | none => none
          else none))
  | [], _ => rfl
  | pc :: rest, h => by
    have hrest : ∀ pc' ∈ rest, pc'.2 ∈ cols → (split_pair_name pc'.1).isSome = true :=
      fun pc' hpc' => h pc' (List.mem_cons_of_mem _ hpc')
    have ih := signatureParts_closed cols focal row rest hrest
    by_cases hcol : pc.2 ∈ cols
    · cases hsplit : split_pair_name pc.1 with
      | none =>
        exfalso
        have := h pc (List.mem_cons_self pc rest) hcol
        rw [hsplit] at this
        simp at this
      | some LR =>
        obtain ⟨L, R⟩ := LR
        by_cases hxor : ((decide (L ∈ focal)).xor (decide (R ∈ focal))) = true
        · have hxor' : ¬(L ∈ focal ↔ R ∈ focal) := by simpa using hxor
          simp [signatureParts, hcol, hsplit, hxor', ih, List.filterMap_cons]
        · have hxor' : (L ∈ focal ↔ R ∈ focal) := by simpa using hxor
          simp [signatureParts, hcol, hsplit, hxor', ih, List.filterMap_cons]
    · simp [signatureParts, hcol, ih, List.filterMap_cons]

/- ---------- C5 ---------- -/

/-- Counterexample to C5 as stated: with focal set {Care, Fairness} the pair
`CareFairness` has BOTH constituent values focal, so the XOR rule excludes
it — the parts list is empty and the signature is NaN, not the raw value
the claim's "included and not inverted" example would give. -/
theorem C5_counterexample :
    signatureParts ["c1"] ["Care", "Fairness"] (fun _ => some 30)
      [("CareFairness", "c1")] = some [] ∧
    signature_for_block [("CareFairness", "c1")] ["c1"] ["Care", "Fairness"]
      (fun _ => some 30) = some none ∧
    some none ≠ (some (some (30 : ℚ)) : Option (Option ℚ)) := by
  refine ⟨by decide, by decide, by simp⟩

/-- C5 (amended): a mapped pair contributes an item iff its source column is
present and EXACTLY ONE of its two constituent values is focal (pairs with
zero or two focal values are excluded — in particular `CareFairness` with
focal {Care, Fairness} is excluded); an included item is `100 - raw` when
the focal value is the second member (`AuthorityCare`: inverted) and `raw`
otherwise (`CareLoyalty`: not inverted); the block signature is the mean
over the included oriented items. -/
theorem C5_profile_signature_amended :
    (∀ (cols focal : List String) (row : String → Option ℚ)
       (mapping : List (String × String)),
      (∀ pc ∈ mapping, pc.2 ∈ cols → (split_pair_name pc.1).isSome = true) →
      signature_for_block mapping cols focal row =
        some (nanmean (mapping.filterMap (fun pc =>
          if pc.2 ∈ cols then
            match split_pair_name pc.1 with
            | some (L, R) =>
              if ((decide (L ∈ focal)).xor (decide (R ∈ focal))) = true then
                some ((row pc.2).map (fun x => if R ∈ focal then 100 - x else x))
              else none
            | none => none
          else none)))) ∧
    split_pair_name "CareFairness" = some ("Care", "Fairness") ∧
    split_pair_name "AuthorityCare" = some ("Authority", "Care") ∧
    signatureParts ["c1"] ["Care", "Fairness"] (fun _ => some 30)
      [("CareFairness", "c1")] = some [] ∧
    signatureParts ["c1"] ["Care", "Fairness"] (fun _ => some 30)
      [("CareLoyalty", "c1")] = some [some 30] ∧
    signatureParts ["c1"] ["Care", "Fairness"] (fun _ => some 30)
      [("AuthorityCare", "c1")] = some [some 70] ∧
    signature_for_block [("AuthorityCare", "c1")] ["c1"] ["Care", "Fairness"]
      (fun _ => some 30) = some (some 70) := by
  refine ⟨?_, by decide, by decide, by decide, by decide, ?_, ?_⟩
  · intro cols focal row mapping h
    unfold signature_for_block
    rw [signatureParts_closed cols focal row mapping h]
    rfl
  · have hsplit : split_pair_name "AuthorityCare" = some ("Authority", "Care") := by
      decide
    simp [signatureParts, hsplit]
    norm_num
  · have hsplit : split_pair_name "AuthorityCare" = some ("Authority", "Care") := by
      decide
    simp [signature_for_block, signatureParts, hsplit, nanmean]
    norm_num

/-- Witness for the amended C5: the closed form applied at a concrete
mapping, column set, focal profile and participant. -/
theorem C5_profile_signature_amended_witness :
    (∀ pc ∈ [("AuthorityCare", "c1"), ("CareFairness", "c2")],
      pc.2 ∈ ["c1", "c2"] → (split_pair_name pc.1).isSome = true) ∧
    signature_for_block [("AuthorityCare", "c1"), ("CareFairness", "c2")]
      ["c1", "c2"] ["Care", "Fairness"] (fun _ => some 30) =
      some (nanmean ([("AuthorityCare", "c1"), ("CareFairness", "c2")].filterMap
        (fun pc =>
          if pc.2 ∈ ["c1", "c2"] then
            match split_pair_name pc.1 with
            | some (L, R) =>
              if ((decide (L ∈ ["Care", "Fairness"])).xor
                  (decide (R ∈ ["Care", "Fairness"]))) = true then
                some (((fun _ => some (30 : ℚ)) pc.2).map
                  (fun x => if R ∈ ["Care", "Fairness"] then 100 - x else x))
              else none
            | none => none
          else none))) :=
  ⟨by decide,
    C5_profile_signature_amended.1 ["c1", "c2"] ["Care", "Fairness"]
      (fun _ => some 30) [("AuthorityCare", "c1"), ("CareFairness", "c2")]
      (by decide)⟩

/- ================================================================
   § 06_A2_pc1_residualisation.residualise_phase2_on_pc1  (lines 44-64)

   X = [1, pc1]; per column y: mask = ~isnan(y); if mask.sum() < 3 the
   column becomes all-NaN; else coef = lstsq(X[mask], y[mask]),
   resid = y - X @ coef (NaN stays NaN).  We embed the fit by the exact
   normal equations (slope = sxy/sxx, intercept = ȳ - slope·x̄, with ℚ's
   x/0 = 0 when sxx = 0): on the observed rows the fitted values are the
   orthogonal projection of y onto span{1, pc1}, which coincides with
   np.linalg.lstsq's least-squares solution, so the residuals agree.
   ================================================================ -/

def meanList (l : List ℚ) : ℚ := l.sum / (l.length : ℚ)

/-- The (pc1, y) pairs at the non-missing entries of `y` (the mask). -/
def observedPairs (pc1 : List ℚ) (y : List (Option ℚ)) : List (ℚ × ℚ) :=
  (pc1.zip y).filterMap (fun p => p.2.map (fun v => (p.1, v)))

def sxxOf (obs : List (ℚ × ℚ)) : ℚ :=
  (obs.map (fun p => (p.1 - meanList (obs.map Prod.fst)) ^ 2)).sum

def sxyOf (obs : List (ℚ × ℚ)) : ℚ :=
  (obs.map (fun p =>
    (p.1 - meanList (obs.map Prod.fst)) * (p.2 - meanList (obs.map Prod.snd)))).sum

def olsSlope (obs : List (ℚ × ℚ)) : ℚ := sxyOf obs / sxxOf obs

def olsIntercept (obs : List (ℚ × ℚ)) : ℚ :=
  meanList (obs.map Prod.snd) - olsSlope obs * meanList (obs.map Prod.fst)

/-- Residualise one Phase-II column on `[1, PC1]`. -/
def residualise_col (pc1 : List ℚ) (y : List (Option ℚ)) : List (Option ℚ) :=
  let obs := observedPairs pc1 y
  if obs.length < 3 then y.map (fun _ => none)
  else
    (pc1.zip y).map (fun p =>
      p.2.map (fun v => v - (olsIntercept obs + olsSlope obs * p.1)))

/-- Sample covariance of a list of (x, y) pairs (denominator n - 1). -/
def sampleCov (l : List (ℚ × ℚ)) : ℚ :=
  (l.map (fun p =>
    (p.1 - meanList (l.map Prod.fst)) * (p.2 - meanList (l.map Prod.snd)))).sum /
    ((l.length : ℚ) - 1)

/- ---------- sum-expansion lemmas ---------- -/

theorem sum_map_resid (l : List (ℚ × ℚ)) (c d : ℚ) :
    (l.map (fun p => p.2 - (c + d * p.1))).sum =
      (l.map Prod.snd).sum - (l.length : ℚ) * c - d * (l.map Prod.fst).sum := by
  induction l with
  | nil => simp
  | cons p t ih =>
    simp only [List.map_cons, List.sum_cons, List.length_cons, ih]
    push_cast
    ring

theorem sum_map_resid_x (l : List (ℚ × ℚ)) (c d : ℚ) :
    (l.map (fun p => (p.2 - (c + d * p.1)) * p.1)).sum =
      (l.map (fun p => p.1 * p.2)).sum - c * (l.map Prod.fst).sum -
        d * (l.map (fun p => p.1 ^ 2)).sum := by
  induction l with
  | nil => simp
  | cons p t ih =>
    simp only [List.map_cons, List.sum_cons, ih]
    ring

theorem sum_map_center_cross (l : List (ℚ × ℚ)) (u v : ℚ) :
    (l.map (fun p => (p.1 - u) * (p.2 - v))).sum =
      (l.map (fun p => p.1 * p.2)).sum - u * (l.map Prod.snd).sum -
        v * (l.map Prod.fst).sum + (l.length : ℚ) * (u * v) := by
  induction l with
  | nil => simp
  | cons p t ih =>
    simp only [List.map_cons, List.sum_cons, List.length_cons, ih]
    push_cast
    ring

theorem sum_map_center_sq (l : List (ℚ × ℚ)) (u : ℚ) :
    (l.map (fun p => (p.1 - u) ^ 2)).sum =
      (l.map (fun p => p.1 ^ 2)).sum - 2 * u * (l.map Prod.fst).sum +
        (l.length : ℚ) * u ^ 2 := by
  induction l with
  | nil => simp
  | cons p t ih =>
    simp only [List.map_cons, List.sum_cons, List.length_cons, ih]
    push_cast
    ring

theorem sum_sq_zero_all_eq (u : ℚ) :
    ∀ l : List (ℚ × ℚ), (l.map (fun p => (p.1 - u) ^ 2)).sum = 0 →
      ∀ p ∈ l, p.1 = u
  | [], _, _, h => absurd h (List.not_mem_nil _)
  | q :: t, hsum, p, hp => by
    simp only [List.map_cons, List.sum_cons] at hsum
    have h1 : (0 : ℚ) ≤ (q.1 - u) ^ 2 := sq_nonneg _
    have h2 : (0 : ℚ) ≤ (t.map (fun p => (p.1 - u) ^ 2)).sum := by
      apply List.sum_nonneg
      intro x hx
      obtain ⟨r, _, rfl⟩ := List.mem_map.mp hx
      exact sq_nonneg _
    have hz := (add_eq_zero_iff_of_nonneg h1 h2).mp hsum
    rcases List.mem_cons.mp hp with rfl | hpt
    · have := pow_eq_zero_iff (n := 2) (by norm_num) |>.mp hz.1
      linarith [this]
    · exact sum_sq_zero_all_eq u t hz.2 p hpt

/-- The exact-OLS residuals sum to zero and are orthogonal to the regressor
    (also in the degenerate constant-regressor case, where the slope is 0). -/
theorem ols_resid_orthogonal (obs : List (ℚ × ℚ)) (hn : obs ≠ []) :
    ((obs.map (fun p => p.2 - (olsIntercept obs + olsSlope obs * p.1))).sum = 0) ∧
    ((obs.map (fun p =>
        (p.2 - (olsIntercept obs + olsSlope obs * p.1)) * p.1)).sum = 0) := by
  have hlen0 : obs.length ≠ 0 := fun h => hn (List.length_eq_zero.mp h)
  have hn0 : ((obs.length : ℚ)) ≠ 0 := Nat.cast_ne_zero.mpr hlen0
  have hmx : meanList (obs.map Prod.fst) =
      (obs.map Prod.fst).sum / (obs.length : ℚ) := by
    unfold meanList; rw [List.length_map]
  have hmy : meanList (obs.map Prod.snd) =
      (obs.map Prod.snd).sum / (obs.length : ℚ) := by
    unfold meanList; rw [List.length_map]
  have ha : olsIntercept obs =
      (obs.map Prod.snd).sum / (obs.length : ℚ) -
        olsSlope obs * ((obs.map Prod.fst).sum / (obs.length : ℚ)) := by
    unfold olsIntercept
    rw [hmy, hmx]
  constructor
  · rw [ha, sum_map_resid]
    field_simp
  · rw [ha, sum_map_resid_x]
    have hA : sxxOf obs =
        (obs.map (fun p => p.1 ^ 2)).sum -
          ((obs.map Prod.fst).sum) ^ 2 / (obs.length : ℚ) := by
      unfold sxxOf
      rw [hmx, sum_map_center_sq]
      field_simp
      ring
    have hB : sxyOf obs =
        (obs.map (fun p => p.1 * p.2)).sum -
          (obs.map Prod.fst).sum * (obs.map Prod.snd).sum / (obs.length : ℚ) := by
      unfold sxyOf
      rw [hmx, hmy, sum_map_center_cross]
      field_simp
      ring
    have key : (obs.map (fun p => p.1 * p.2)).sum -
        ((obs.map Prod.snd).sum / (obs.length : ℚ) -
          olsSlope obs * ((obs.map Prod.fst).sum / (obs.length : ℚ))) *
            (obs.map Prod.fst).sum -
        olsSlope obs * (obs.map (fun p => p.1 ^ 2)).sum =
        sxyOf obs - olsSlope obs * sxxOf obs := by
      rw [hA, hB]
      field_simp
      ring
    rw [key]
    by_cases hzero : sxxOf obs = 0
    · have hb0 : olsSlope obs = 0 := by
        unfold olsSlope
        rw [hzero, div_zero]
      have hall : ∀ p ∈ obs, p.1 = meanList (obs.map Prod.fst) := by
        apply sum_sq_zero_all_eq
        exact hzero
      have hsxy0 : sxyOf obs = 0 := by
        unfold sxyOf
        apply List.sum_eq_zero
        intro x hx
        obtain ⟨p, hp, rfl⟩ := List.mem_map.mp hx
        rw [hall p hp]
        ring
      rw [hb0, hsxy0]
      ring
    · unfold olsSlope
      rw [div_mul_cancel₀ _ hzero]
      ring

theorem zip_map_zip (f : ℚ × Option ℚ → Option ℚ) :
    ∀ (xs : List ℚ) (ys : List (Option ℚ)),
      xs.zip ((xs.zip ys).map f) = (xs.zip ys).map (fun p => (p.1, f p))
  | [], _ => by simp
  | _ :: _, [] => by simp
  | x :: xs, y :: ys => by
    simp only [List.zip_cons_cons, List.map_cons]
    rw [zip_map_zip f xs ys]

/-- With at least 3 observed values, the observed (PC1, residual) pairs are
    the observed (PC1, y) pairs with y replaced by its OLS residual. -/
theorem observed_resid (pc1 : List ℚ) (y : List (Option ℚ))
    (h : ¬ (observedPairs pc1 y).length < 3) :
    observedPairs pc1 (residualise_col pc1 y) =
      (observedPairs pc1 y).map (fun p =>
        (p.1, p.2 - (olsIntercept (observedPairs pc1 y) +
          olsSlope (observedPairs pc1 y) * p.1))) := by
  conv_lhs => rw [residualise_col]
  rw [if_neg h]
  conv_lhs => rw [observedPairs]
  rw [zip_map_zip, List.filterMap_map]
  conv_rhs => rw [observedPairs]
  rw [List.map_filterMap]
  congr 1
  funext p
  cases hp : p.2 with
  | none => simp [Function.comp, hp, observedPairs]
  | some v => simp [Function.comp, hp, observedPairs]

/- ---------- C6 ---------- -/

/-- C6: for every Phase-II item with at least 3 non-missing values and a
fully observed PC1 vector, the residualised item has exactly zero sample
covariance with PC1 over the participants observed for that item; an item
with fewer than 3 non-missing values is not fit and its residual column is
entirely missing. -/
theorem C6_pc1_residualisation :
    (∀ (pc1 : List ℚ) (y : List (Option ℚ)),
      3 ≤ (observedPairs pc1 y).length →
      sampleCov (observedPairs pc1 (residualise_col pc1 y)) = 0) ∧
    (∀ (pc1 : List ℚ) (y : List (Option ℚ)),
      (observedPairs pc1 y).length < 3 →
      residualise_col pc1 y = y.map (fun _ => none)) := by
  constructor
  · intro pc1 y h3
    have hnl : ¬ (observedPairs pc1 y).length < 3 := not_lt.mpr h3
    rw [observed_resid pc1 y hnl]
    have hne : observedPairs pc1 y ≠ [] := by
      intro hnil
      rw [hnil] at h3
      simp at h3
    obtain ⟨hS0, hSx0⟩ := ols_resid_orthogonal (observedPairs pc1 y) hne
    have hfst : ((observedPairs pc1 y).map (fun p =>
        (p.1, p.2 - (olsIntercept (observedPairs pc1 y) +
          olsSlope (observedPairs pc1 y) * p.1)))).map Prod.fst =
        (observedPairs pc1 y).map Prod.fst := by
      rw [List.map_map]
      rfl
    have hsnd : ((observedPairs pc1 y).map (fun p =>
        (p.1, p.2 - (olsIntercept (observedPairs pc1 y) +
          olsSlope (observedPairs pc1 y) * p.1)))).map Prod.snd =
        (observedPairs pc1 y).map (fun p =>
          p.2 - (olsIntercept (observedPairs pc1 y) +
            olsSlope (observedPairs pc1 y) * p.1)) := by
      rw [List.map_map]
      rfl
    have hq : (((observedPairs pc1 y).map (fun p =>
        (p.1, p.2 - (olsIntercept (observedPairs pc1 y) +
          olsSlope (observedPairs pc1 y) * p.1)))).map
        (fun q => q.1 * q.2)).sum = 0 := by
      rw [List.map_map]
      have hcomp : ((fun q : ℚ × ℚ => q.1 * q.2) ∘ (fun p : ℚ × ℚ =>
          (p.1, p.2 - (olsIntercept (observedPairs pc1 y) +
            olsSlope (observedPairs pc1 y) * p.1)))) =
          fun p : ℚ × ℚ => (p.2 - (olsIntercept (observedPairs pc1 y) +
            olsSlope (observedPairs pc1 y) * p.1)) * p.1 := by
        funext p
        simp only [Function.comp]
        ring
      rw [hcomp, hSx0]
    unfold sampleCov
    rw [sum_map_center_cross, hq, hfst, hsnd, hS0]
    simp only [meanList, List.length_map, hsnd, hS0]
    simp
  · intro pc1 y hlt
    unfold residualise_col
    rw [if_pos hlt]

/-- Witness for C6: a concrete item with 3 observed values has residuals
with zero sample covariance with PC1, and an item with 1 observed value
becomes an all-missing column. -/
theorem C6_pc1_residualisation_witness :
    (3 ≤ (observedPairs [1, 2, 3] [some 1, some 5, some 2]).length ∧
      sampleCov (observedPairs [1, 2, 3]
        (residualise_col [1, 2, 3] [some 1, some 5, some 2])) = 0) ∧
    ((observedPairs [1, 2] [some 1, none]).length < 3 ∧
      residualise_col [1, 2] [some 1, none] =
        ([some 1, none] : List (Option ℚ)).map (fun _ => none)) :=
  ⟨⟨by decide,
    C6_pc1_residualisation.1 [1, 2, 3] [some 1, some 5, some 2] (by decide)⟩,
   ⟨by decide,
    C6_pc1_residualisation.2 [1, 2] [some 1, none] (by decide)⟩⟩

/- ================================================================
   § sa_utils.icc_2_1  (lines 80-104)

   mask = isfinite(x) & isfinite(y); X = [x[mask], y[mask]]^T (n, k=2)
   n < 3 → NaN.  Two-way ANOVA mean squares and
   ICC = (MSR - MSE) / (MSR + (k-1)MSE + k(MSC - MSE)/n).
   A zero denominator makes the float result non-finite (NaN/±inf),
   modelled as `none`.
   ================================================================ -/

/-- The (x, y) pairs at positions where both ratings are present. -/
def pairedObs (r1 r2 : List (Option ℚ)) : List (ℚ × ℚ) :=
  (r1.zip r2).filterMap (fun p => p.1.bind (fun a => p.2.map (fun b => (a, b))))

def iccN (obs : List (ℚ × ℚ)) : ℚ := (obs.length : ℚ)

/-- Rater means (column means of X). -/
def iccM1 (obs : List (ℚ × ℚ)) : ℚ := (obs.map Prod.fst).sum / iccN obs

def iccM2 (obs : List (ℚ × ℚ)) : ℚ := (obs.map Prod.snd).sum / iccN obs

/-- The grand mean `X.mean()`. -/
def iccGrand (obs : List (ℚ × ℚ)) : ℚ :=
  (obs.map (fun p => p.1 + p.2)).sum / (2 * iccN obs)

/-- `MSR = k * Σ(mean_per_target - grand)² / (n - 1)` with k = 2. -/
def iccMSR (obs : List (ℚ × ℚ)) : ℚ :=
  2 * (obs.map (fun p => ((p.1 + p.2) / 2 - iccGrand obs) ^ 2)).sum /
    (iccN obs - 1)

/-- `MSC = n * Σ(mean_per_rater - grand)² / (k - 1)` with k = 2. -/
def iccMSC (obs : List (ℚ × ℚ)) : ℚ :=
  iccN obs * ((iccM1 obs - iccGrand obs) ^ 2 + (iccM2 obs - iccGrand obs) ^ 2) /
    (2 - 1)

/-- `MSE = Σ(X - target - rater + grand)² / ((k-1)(n-1))` with k = 2. -/
def iccMSE (obs : List (ℚ × ℚ)) : ℚ :=
  ((obs.map (fun p =>
      (p.1 - (p.1 + p.2) / 2 - iccM1 obs + iccGrand obs) ^ 2)).sum +
   (obs.map (fun p =>
      (p.2 - (p.1 + p.2) / 2 - iccM2 obs + iccGrand obs) ^ 2)).sum) /
    ((2 - 1) * (iccN obs - 1))

def iccDen (obs : List (ℚ × ℚ)) : ℚ :=
  iccMSR obs + (2 - 1) * iccMSE obs + 2 * (iccMSC obs - iccMSE obs) / iccN obs

def icc_2_1 (r1 r2 : List (Option ℚ)) : Option ℚ :=
  if (pairedObs r1 r2).length < 3 then none
  else if iccDen (pairedObs r1 r2) = 0 then none
  else some ((iccMSR (pairedObs r1 r2) - iccMSE (pairedObs r1 r2)) /
    iccDen (pairedObs r1 r2))

/- ---------- helper lemmas for icc ---------- -/

theorem pairedObs_self : ∀ r : List (Option ℚ),
    pairedObs r r = (r.filterMap id).map (fun v => (v, v))
  | [] => rfl
  | none :: t => by
    simpa [pairedObs, List.filterMap_cons] using pairedObs_self t
  | some v :: t => by
    simpa [pairedObs, List.filterMap_cons] using pairedObs_self t

/- ---------- C7 and C8 ---------- -/

/-- Counterexample to C7 as stated: for the identical CONSTANT vectors
[5,5,5] all ANOVA mean squares are 0, the ICC denominator is 0, and the
float result is 0/0 = NaN (`none`), not 1.0. -/
theorem C7_counterexample :
    icc_2_1 [some 5, some 5, some 5] [some 5, some 5, some 5] = none ∧
    (none : Option ℚ) ≠ some 1 := by
  constructor
  · have hobs : pairedObs [some 5, some 5, some 5] [some 5, some 5, some 5] =
        [(5, 5), (5, 5), (5, 5)] := by
      decide
    have hg : iccGrand [(5, 5), (5, 5), (5, 5)] = 5 := by
      norm_num [iccGrand, iccN]
    have hm1 : iccM1 [(5, 5), (5, 5), (5, 5)] = 5 := by
      norm_num [iccM1, iccN]
    have hm2 : iccM2 [(5, 5), (5, 5), (5, 5)] = 5 := by
      norm_num [iccM2, iccN]
    have hmsr : iccMSR [(5, 5), (5, 5), (5, 5)] = 0 := by
      norm_num [iccMSR, hg, iccN]
    have hmsc : iccMSC [(5, 5), (5, 5), (5, 5)] = 0 := by
      norm_num [iccMSC, hg, hm1, hm2, iccN]
    have hmse : iccMSE [(5, 5), (5, 5), (5, 5)] = 0 := by
      norm_num [iccMSE, hg, hm1, hm2, iccN]
    have hden : iccDen [(5, 5), (5, 5), (5, 5)] = 0 := by
      norm_num [iccDen, hmsr, hmsc, hmse]
    unfold icc_2_1
    rw [hobs]
    norm_num [hden]
  · simp

/-- C7 (amended): for identical rating vectors with at least 3 finite paired
entries whose observed values are NOT all equal, `icc_2_1` returns exactly 1
(for constant vectors all mean squares vanish and the float result is the
non-finite 0/0 instead). -/
theorem C7_icc_identical_amended (r : List (Option ℚ))
    (h3 : 3 ≤ (pairedObs r r).length)
    (hne : ∃ a ∈ r.filterMap id, ∃ b ∈ r.filterMap id, a ≠ b) :
    icc_2_1 r r = some 1 := by
  have hobs := pairedObs_self r
  have hp21 : ∀ p ∈ pairedObs r r, p.2 = p.1 := by
    rw [hobs]
    intro p hp
    obtain ⟨v, _, rfl⟩ := List.mem_map.mp hp
    rfl
  have hn3 : (3 : ℚ) ≤ iccN (pairedObs r r) := by
    unfold iccN
    exact_mod_cast h3
  have hn0 : iccN (pairedObs r r) ≠ 0 := by
    intro h
    rw [h] at hn3
    norm_num at hn3
  have hn1 : iccN (pairedObs r r) - 1 ≠ 0 := by
    intro h
    have : iccN (pairedObs r r) = 1 := by linarith
    rw [this] at hn3
    norm_num at hn3
  have hfst : (pairedObs r r).map Prod.fst = r.filterMap id := by
    rw [hobs, List.map_map]
    rw [show (Prod.fst ∘ fun v : ℚ => (v, v)) = id from rfl, List.map_id]
  have hsnd : (pairedObs r r).map Prod.snd = r.filterMap id := by
    rw [hobs, List.map_map]
    rw [show (Prod.snd ∘ fun v : ℚ => (v, v)) = id from rfl, List.map_id]
  have hsum2 : ((pairedObs r r).map (fun p => p.1 + p.2)).sum =
      (r.filterMap id).sum + (r.filterMap id).sum := by
    rw [hobs, List.map_map]
    have : ((fun p : ℚ × ℚ => p.1 + p.2) ∘ fun v : ℚ => (v, v)) =
        fun v : ℚ => v + v := rfl
    rw [this, List.sum_map_add]
    simp
  have hg : iccGrand (pairedObs r r) = iccM1 (pairedObs r r) := by
    unfold iccGrand iccM1
    rw [hsum2, hfst]
    rw [show (r.filterMap id).sum + (r.filterMap id).sum =
        2 * (r.filterMap id).sum from by ring]
    rw [mul_div_mul_left _ _ (by norm_num : (2 : ℚ) ≠ 0)]
  have hm2 : iccM2 (pairedObs r r) = iccM1 (pairedObs r r) := by
    unfold iccM2 iccM1
    rw [hsnd, hfst]
  have hmse : iccMSE (pairedObs r r) = 0 := by
    unfold iccMSE
    have h1 : ((pairedObs r r).map (fun p =>
        (p.1 - (p.1 + p.2) / 2 - iccM1 (pairedObs r r) +
          iccGrand (pairedObs r r)) ^ 2)).sum = 0 := by
      apply List.sum_eq_zero
      intro x hx
      obtain ⟨p, hp, rfl⟩ := List.mem_map.mp hx
      rw [hp21 p hp, hg]
      ring
    have h2 : ((pairedObs r r).map (fun p =>
        (p.2 - (p.1 + p.2) / 2 - iccM2 (pairedObs r r) +
          iccGrand (pairedObs r r)) ^ 2)).sum = 0 := by
      apply List.sum_eq_zero
      intro x hx
      obtain ⟨p, hp, rfl⟩ := List.mem_map.mp hx
      rw [hp21 p hp, hg, hm2]
      ring
    rw [h1, h2]
    simp
  have hmsc : iccMSC (pairedObs r r) = 0 := by
    unfold iccMSC
    rw [hg, hm2]
    simp
  have hden : iccDen (pairedObs r r) = iccMSR (pairedObs r r) := by
    unfold iccDen
    rw [hmse, hmsc]
    ring
  have hSconv : ((pairedObs r r).map (fun p =>
      ((p.1 + p.2) / 2 - iccGrand (pairedObs r r)) ^ 2)).sum =
      ((pairedObs r r).map (fun p =>
        (p.1 - iccGrand (pairedObs r r)) ^ 2)).sum := by
    refine congrArg List.sum (List.map_congr_left ?_)
    intro p hp
    rw [hp21 p hp]
    ring
  have hS : ((pairedObs r r).map (fun p =>
      (p.1 - iccGrand (pairedObs r r)) ^ 2)).sum ≠ 0 := by
    intro hzero
    have hall := sum_sq_zero_all_eq (iccGrand (pairedObs r r)) _ hzero
    obtain ⟨a, ha, b, hb, hab⟩ := hne
    have haa : (a, a) ∈ pairedObs r r := by
      rw [hobs]
      exact List.mem_map_of_mem _ ha
    have hbb : (b, b) ∈ pairedObs r r := by
      rw [hobs]
      exact List.mem_map_of_mem _ hb
    exact hab ((hall (a, a) haa).trans (hall (b, b) hbb).symm)
  have hmsr : iccMSR (pairedObs r r) ≠ 0 := by
    unfold iccMSR
    rw [hSconv]
    exact div_ne_zero (mul_ne_zero (by norm_num) hS) hn1
  unfold icc_2_1
  rw [if_neg (not_lt.mpr h3), if_neg (by rw [hden]; exact hmsr)]
  rw [hmse, hden, sub_zero, div_self hmsr]

/-- Witness for the amended C7 at the concrete identical non-constant
vectors [1, 2, 4]. -/
theorem C7_icc_identical_amended_witness :
    (3 ≤ (pairedObs [some 1, some 2, some 4] [some 1, some 2, some 4]).length ∧
     ∃ a ∈ ([some 1, some 2, some 4] : List (Option ℚ)).filterMap id,
       ∃ b ∈ ([some 1, some 2, some 4] : List (Option ℚ)).filterMap id, a ≠ b) ∧
    icc_2_1 [some 1, some 2, some 4] [some 1, some 2, some 4] = some 1 :=
  ⟨⟨by decide, ⟨1, by decide, 2, by decide, by norm_num⟩⟩,
    C7_icc_identical_amended [some 1, some 2, some 4] (by decide)
      ⟨1, by decide, 2, by decide, by norm_num⟩⟩

/-- C8: with fewer than 3 positions where both ratings are finite, icc_2_1
returns NaN (`none`), never a numeric default. -/
theorem C8_icc_insufficient (r1 r2 : List (Option ℚ))
    (h : (pairedObs r1 r2).length < 3) :
    icc_2_1 r1 r2 = none := by
  unfold icc_2_1
  rw [if_pos h]

/-- Witness for C8: two vectors with a single complete pair. -/
theorem C8_icc_insufficient_witness :
    (pairedObs [some 1, none, some 2] [some 1, some 1, none]).length < 3 ∧
    icc_2_1 [some 1, none, some 2] [some 1, some 1, none] = none :=
  ⟨by decide,
    C8_icc_insufficient [some 1, none, some 2] [some 1, some 1, none] (by decide)⟩

/- ================================================================
   § 11_B1_block_structure  (lines 36-97)

   For each (block, mapping): cols = [c for c in mapping.values()
   if c in df.columns]; len(cols) < 3 → warn and skip (no row).
   Z = (X - mean)/std(ddof=1); X = Z.dropna(axis=0);
   omega/pca guards: X.shape[0] < 5 → NaN; else ω from PC1 loadings
   L = v1·sqrt(ev1) and %variance of PC1/PC2.  A row is appended for every
   non-skipped block (NaN statistics included) and the table is sorted by
   block name.  sklearn's eigendecomposition is not expressible in exact
   arithmetic; it is abstracted as an uninterpreted parameter `pca` giving
   (PC1 loadings on the z-scored items, %var PC1, %var PC2) of the complete
   rows; the ω formula from the loadings is kept explicit.
   A z-scored cell is non-missing iff the raw cell is non-missing and the
   column's ddof=1 std is finite and nonzero (≥ 2 observed values and
   nonzero centered sum of squares).
   ================================================================ -/

structure CleanDF where
  cols : List String
  rows : List (String → Option ℚ)

def colVals (df : CleanDF) (c : String) : List ℚ :=
  df.rows.filterMap (fun row => row c)

def colSS (df : CleanDF) (c : String) : ℚ :=
  (((colVals df c)).map (fun x => (x - meanList (colVals df c)) ^ 2)).sum

/-- Whether z-scoring column `c` yields finite values (std defined, ≠ 0). -/
def colZOk (df : CleanDF) (c : String) : Bool :=
  decide (2 ≤ (colVals df c).length) && decide (colSS df c ≠ 0)

/-- `Z.dropna(axis=0)`: the data rows that are complete after z-scoring,
    as their raw values per available column. -/
def completeRows (df : CleanDF) (avail : List String) : List (List ℚ) :=
  df.rows.filterMap (fun row =>
    if avail.all (fun c => (row c).isSome && colZOk df c) then
      some (avail.map (fun c => (row c).getD 0))
    else none)

/-- `[c for c in mapping.values() if c in df.columns]`. -/
def availCols (df : CleanDF) (mapping : List (String × String)) : List String :=
  (mapping.map Prod.snd).filter (fun c => c ∈ df.cols)

/-- `omega_total_from_pca`: NaN for fewer than 5 complete rows, otherwise
    `(ΣL)² / ((ΣL)² + Σ(1 - L²))` from the PC1 loadings. -/
def omega_total_from_pca (pca : List (List ℚ) → List ℚ × ℚ × ℚ)
    (df : CleanDF) (avail : List String) : Option ℚ :=
  if (completeRows df avail).length < 5 then none
  else
    some (((pca (completeRows df avail)).1.sum) ^ 2 /
      (((pca (completeRows df avail)).1.sum) ^ 2 +
        ((pca (completeRows df avail)).1.map (fun x => 1 - x ^ 2)).sum))

/-- `pca_var_explained`: NaN pair for fewer than 5 complete rows. -/
def pca_var_explained (pca : List (List ℚ) → List ℚ × ℚ × ℚ)
    (df : CleanDF) (avail : List String) : Option ℚ × Option ℚ :=
  if (completeRows df avail).length < 5 then (none, none)
  else (some (pca (completeRows df avail)).2.1,
        some (pca (completeRows df avail)).2.2)

structure BlockRow where
  block : String
  omega : Option ℚ
  pc1 : Option ℚ
  pc2 : Option ℚ
deriving DecidableEq

/-- The rows collected by the B1 main loop (before the final sort by block
    name, which permutes but never adds or removes rows). -/
def b1_rows (pca : List (List ℚ) → List ℚ × ℚ × ℚ) (df : CleanDF)
    (blockMaps : List (String × List (String × String))) : List BlockRow :=
  blockMaps.filterMap (fun bm =>
    if (availCols df bm.2).length < 3 then none
    else some
      { block := bm.1
        omega := omega_total_from_pca pca df (availCols df bm.2)
        pc1 := (pca_var_explained pca df (availCols df bm.2)).1
        pc2 := (pca_var_explained pca df (availCols df bm.2)).2 })

/-- The blocks warned about (and skipped) by the B1 main loop. -/
def b1_warnings (df : CleanDF)
    (blockMaps : List (String × List (String × String))) : List String :=
  (blockMaps.filter (fun bm =>
    decide ((availCols df bm.2).length < 3))).map Prod.fst

theorem mem_b1_rows_block (pca : List (List ℚ) → List ℚ × ℚ × ℚ)
    (df : CleanDF) :
    ∀ blockMaps : List (String × List (String × String)),
      ∀ r ∈ b1_rows pca df blockMaps, r.block ∈ blockMaps.map Prod.fst := by
  intro blockMaps
  induction blockMaps with
  | nil =>
    intro r hr
    simp [b1_rows] at hr
  | cons bm tl ih =>
    intro r hr
    rw [b1_rows, List.filterMap_cons] at hr
    by_cases hc : (availCols df bm.2).length < 3
    · rw [if_pos hc] at hr
      exact List.mem_cons_of_mem _ (ih r hr)
    · rw [if_neg hc] at hr
      rcases List.mem_cons.mp hr with rfl | hr'
      · simp
      · exact List.mem_cons_of_mem _ (ih r hr')

theorem b1_count (pca : List (List ℚ) → List ℚ × ℚ × ℚ) (df : CleanDF) :
    ∀ blockMaps : List (String × List (String × String)),
      (blockMaps.map Prod.fst).Nodup →
      ∀ bm ∈ blockMaps,
        (b1_rows pca df blockMaps).countP (fun r => r.block == bm.1) =
          if (availCols df bm.2).length < 3 then 0 else 1 := by
  intro blockMaps
  induction blockMaps with
  | nil =>
    intro _ bm hbm
    simp at hbm
  | cons hd tl ih =>
    intro hnd bm hbm
    have hnd' : (tl.map Prod.fst).Nodup := by
      rw [List.map_cons] at hnd
      exact hnd.of_cons
    have hhd : hd.1 ∉ tl.map Prod.fst := by
      rw [List.map_cons] at hnd
      exact (List.nodup_cons.mp hnd).1
    have htl0 : ∀ s : String, s ∉ tl.map Prod.fst →
        (b1_rows pca df tl).countP (fun r => r.block == s) = 0 := by
      intro s hs
      rw [List.countP_eq_zero]
      intro r hr
      simp only [beq_iff_eq]
      intro heq
      exact hs (heq ▸ mem_b1_rows_block pca df tl r hr)
    rcases List.mem_cons.mp hbm with rfl | hmem
    · rw [b1_rows, List.filterMap_cons]
      by_cases hc : (availCols df bm.2).length < 3
      · rw [if_pos hc, if_pos hc]
        exact htl0 bm.1 hhd
      · rw [if_neg hc, if_neg hc]
        rw [List.countP_cons_of_pos _ _ (by simp)]
        have h0 := htl0 bm.1 hhd
        unfold b1_rows at h0
        rw [h0]
    · have hne : hd.1 ≠ bm.1 := by
        intro h
        exact hhd (h ▸ List.mem_map_of_mem Prod.fst hmem)
      rw [b1_rows, List.filterMap_cons]
      by_cases hc : (availCols df hd.2).length < 3
      · rw [if_pos hc]
        exact ih hnd' bm hmem
      · rw [if_neg hc]
        rw [List.countP_cons_of_neg _ _ (by simp [hne])]
        exact ih hnd' bm hmem

/- ---------- C9 ---------- -/

/-- Counterexample to C9 as stated: a block whose 3 mapped columns all
exist but which has 0 (< 5) complete rows is NOT skipped — the main loop
still appends a row for it (with NaN ω and NaN %variance) and warns about
nothing; the claim says such a block is skipped with a warning and
contributes no row. -/
theorem C9_counterexample :
    (availCols ⟨["a", "b", "c"], []⟩
      [("p1", "a"), ("p2", "b"), ("p3", "c")]).length = 3 ∧
    (completeRows ⟨["a", "b", "c"], []⟩
      (availCols ⟨["a", "b", "c"], []⟩
        [("p1", "a"), ("p2", "b"), ("p3", "c")])).length < 5 ∧
    b1_rows (fun _ => ([], 0, 0)) ⟨["a", "b", "c"], []⟩
      [("B", [("p1", "a"), ("p2", "b"), ("p3", "c")])] =
      [{ block := "B", omega := none, pc1 := none, pc2 := none }] ∧
    b1_warnings ⟨["a", "b", "c"], []⟩
      [("B", [("p1", "a"), ("p2", "b"), ("p3", "c")])] = [] := by
  refine ⟨by decide, by decide, by decide, by decide⟩

/-- C9 (amended): a block contributes exactly one row iff it has at least 3
available item columns, and is otherwise skipped with a warning; a
non-skipped block with fewer than 5 complete rows still contributes a row,
with NaN ω and NaN %variance; with at least 5 complete rows the row reports
ω computed from the first-principal-component loadings on the z-scored
items and the percent variance of the first two components. -/
theorem C9_block_structure_amended (pca : List (List ℚ) → List ℚ × ℚ × ℚ)
    (df : CleanDF) (blockMaps : List (String × List (String × String)))
    (hnd : (blockMaps.map Prod.fst).Nodup) :
    (∀ bm ∈ blockMaps,
      (b1_rows pca df blockMaps).countP (fun r => r.block == bm.1) =
        if (availCols df bm.2).length < 3 then 0 else 1) ∧
    (∀ bm ∈ blockMaps,
      (bm.1 ∈ b1_warnings df blockMaps ↔ (availCols df bm.2).length < 3)) ∧
    (∀ avail : List String, (completeRows df avail).length < 5 →
      omega_total_from_pca pca df avail = none ∧
      pca_var_explained pca df avail = (none, none)) ∧
    (∀ avail : List String, 5 ≤ (completeRows df avail).length →
      omega_total_from_pca pca df avail =
        some (((pca (completeRows df avail)).1.sum) ^ 2 /
          (((pca (completeRows df avail)).1.sum) ^ 2 +
            ((pca (completeRows df avail)).1.map (fun x => 1 - x ^ 2)).sum)) ∧
      pca_var_explained pca df avail =
        (some (pca (completeRows df avail)).2.1,
         some (pca (completeRows df avail)).2.2)) := by
  refine ⟨b1_count pca df blockMaps hnd, ?_, ?_, ?_⟩
  · intro bm hbm
    unfold b1_warnings
    constructor
    · intro h
      obtain ⟨bm', hbm', heq⟩ := List.mem_map.mp h
      rw [List.mem_filter] at hbm'
      have hb : bm' = bm := List.inj_on_of_nodup_map hnd hbm'.1 hbm heq
      have := hbm'.2
      rw [hb] at this
      simpa using this
    · intro h
      exact List.mem_map_of_mem _ (List.mem_filter.mpr ⟨hbm, by simpa using h⟩)
  · intro avail h
    constructor
    · unfold omega_total_from_pca
      rw [if_pos h]
    · unfold pca_var_explained
      rw [if_pos h]
  · intro avail h
    have h' : ¬ (completeRows df avail).length < 5 := not_lt.mpr h
    constructor
    · unfold omega_total_from_pca
      rw [if_neg h']
    · unfold pca_var_explained
      rw [if_neg h']

/-- Witness for the amended C9 at a concrete table and block map. -/
theorem C9_block_structure_amended_witness :
    (([("B", [("p1", "a"), ("p2", "b"), ("p3", "c")]),
       ("C", [("p1", "zz")])].map Prod.fst).Nodup) ∧
    (∀ bm ∈ [("B", [("p1", "a"), ("p2", "b"), ("p3", "c")]),
             ("C", [("p1", "zz")])],
      (b1_rows (fun _ => ([], 0, 0)) ⟨["a", "b", "c"], []⟩
        [("B", [("p1", "a"), ("p2", "b"), ("p3", "c")]),
         ("C", [("p1", "zz")])]).countP (fun r => r.block == bm.1) =
        if (availCols ⟨["a", "b", "c"], []⟩ bm.2).length < 3 then 0 else 1) :=
  ⟨by decide,
    (C9_block_structure_amended (fun _ => ([], 0, 0)) ⟨["a", "b", "c"], []⟩
      [("B", [("p1", "a"), ("p2", "b"), ("p3", "c")]), ("C", [("p1", "zz")])]
      (by decide)).1⟩
